import Mathlib

set_option autoImplicit false

/-!
Verification of the reader TUI core (Go sources in src/): the navigation
state machine, category builder, viewport pager and markup converter.

The Go code is shallowly embedded:
* Go strings are Lean `String` (a structure holding a `List Char`), and
  the Go standard-library string helpers used by the code
  (strings.TrimSpace, strings.Contains, strings.Split) are re-implemented
  below as executable Lean functions.
* Go `int` is `Int`; Go integer division truncates toward zero, so the
  embedding uses `Int.tdiv` where the source divides.
* The `model`/`App` bubbletea model is the structure `App`.  The two
  pointer-valued fields of the Go struct (`api *ReaderAPI`, the network
  client, and `renderer *glamour.TermRenderer`, the rich renderer) are
  external collaborators: the api never influences `Update` directly
  (results arrive as messages), and the renderer is passed to `update`
  as a function `render : String → Option String` (`none` models a
  render error, triggering the fallback path of the source).
* `tea.Cmd` values returned by `Update` (asynchronous loads) carry no
  state; the embedding keeps only the state component.
-/

/-! ## Go string helpers -/

/-- The Unicode white-space characters recognized by Go's
`unicode.IsSpace` (used by `strings.TrimSpace`). -/
def goUniSpaceChars : List Char :=
  [' ', '\t', '\n', '\x0b', '\x0c', '\r', '\x85', '\xa0', ' ',
   ' ', ' ', ' ', ' ', ' ', ' ', ' ',
   ' ', ' ', ' ', ' ', ' ', ' ', ' ',
   ' ', '　']

/-- Go `unicode.IsSpace`. -/
def goUniSpace (c : Char) : Bool := goUniSpaceChars.contains c

/-- Go `strings.TrimSpace`: remove leading and trailing white space. -/
def goTrimSpace (s : String) : String :=
  String.mk (((s.data.dropWhile goUniSpace).reverse.dropWhile goUniSpace).reverse)

/-- Contiguous-substring search on character lists. -/
def containsSub (s sub : List Char) : Bool :=
  match s with
  | [] => sub.isEmpty
  | c :: t => sub.isPrefixOf (c :: t) || containsSub t sub

/-- Go `strings.Contains s sub`. -/
def goContains (s sub : String) : Bool := containsSub s.data sub.data

/-- Split a character list at newline characters (every occurrence,
keeping empty fields). -/
def splitNL : List Char → List (List Char)
  | [] => [[]]
  | c :: cs =>
    if c = '\n' then [] :: splitNL cs
    else
      match splitNL cs with
      | [] => [[c]]
      | h :: t => (c :: h) :: t

/-- Go `strings.Split s "\n"`. -/
def goSplit (s : String) : List String := (splitNL s.data).map String.mk

/-! ## Data model (src/src/main.go, src/src/reader_api.go) -/

/-- The loosely typed `published_date` JSON field (`any` in Go): it may
arrive absent, as a string, or as a number.  The numeric case is kept
abstract as an integer (the Go code only ever formats it with `%.0f`). -/
inductive PublishedDate where
  | null
  | text (s : String)
  | numeric (n : Int)
  deriving DecidableEq

/-- The `Document` record (struct `Document`). -/
structure Document where
  id : String := ""
  title : String := ""
  author : String := ""
  summary : String := ""
  url : String := ""
  sourceURL : String := ""
  category : String := ""
  location : String := ""
  wordCount : Int := 0
  publishedDate : PublishedDate := PublishedDate.null
  htmlContent : String := ""
  deriving DecidableEq

/-- `Document.GetPublishedDate`: normalize the loosely typed field to a
display string. -/
def Document.getPublishedDate (d : Document) : String :=
  match d.publishedDate with
  | PublishedDate.null => ""
  | PublishedDate.text s => s
  | PublishedDate.numeric n => toString n

/-- The derived `Category` record (struct `Category`). -/
structure Category where
  name : String
  location : String
  count : Int
  deriving DecidableEq

/-- The two screens of the `state` enumeration
(`documentListView`, `documentReadView`). -/
inductive State where
  | documentListView
  | documentReadView
  deriving DecidableEq

/-! ## Category builder (buildCategories) -/

/-- One step of the `locationCounts[doc.Location]++` map update.  Go maps
are modelled as association lists in insertion order; a missing key is
appended with count 1. -/
def bumpCount : List (String × Nat) → String → List (String × Nat)
  | [], k => [(k, 1)]
  | (k1, v) :: rest, k =>
    if k1 = k then (k1, v + 1) :: rest else (k1, v) :: bumpCount rest k

/-- Association-list lookup, modelling `count, exists := locationCounts[location]`. -/
def lookupCount : List (String × Nat) → String → Option Nat
  | [], _ => none
  | (k1, v) :: rest, k => if k1 = k then some v else lookupCount rest k

/-- The first loop of `buildCategories`: count valid (non-blank-title)
documents per location tag. -/
def locationCounts (documents : List Document) : List (String × Nat) :=
  documents.foldl
    (fun m doc => if goTrimSpace doc.title ≠ "" then bumpCount m doc.location else m) []

/-- The `locationNames` display-name table; a Go map lookup of a missing
key yields the zero value `""`. -/
def locationName (location : String) : String :=
  if location = "new" then "📥 New"
  else if location = "later" then "🕐 Later"
  else if location = "archive" then "📦 Archive"
  else if location = "feed" then "📰 Feed"
  else if location = "shortlist" then "⭐ Shortlist"
  else ""

/-- The fixed `preferredOrder` table. -/
def preferredOrder : List String := ["new", "later", "archive", "feed", "shortlist"]

/-- Title-case one word: `cases.Title(language.English)` upper-cases the
first letter of a word and lower-cases the rest. -/
def titleCaseWord (w : List Char) : List Char :=
  match w with
  | [] => []
  | c :: cs => c.toUpper :: cs.map Char.toLower

/-- Split a character list at space characters, keeping empty fields. -/
def splitSpace : List Char → List (List Char)
  | [] => [[]]
  | c :: cs =>
    if c = ' ' then [] :: splitSpace cs
    else
      match splitSpace cs with
      | [] => [[c]]
      | h :: t => (c :: h) :: t

/-- Rejoin space-separated fields. -/
def joinSpace : List (List Char) → List Char
  | [] => []
  | [w] => w
  | w :: ws => w ++ ' ' :: joinSpace ws

/-- Model of `cases.Title(language.English).String` on space-separated
words. -/
def titleCaseEnglish (s : String) : String :=
  String.mk (joinSpace ((splitSpace s.data).map titleCaseWord))

/-- The category built for one location tag in the second loop of
`buildCategories` (display name falls back to the title-cased raw tag). -/
def unknownCategory (p : String × Nat) : Category :=
  let name := locationName p.1
  let name := if name = "" then titleCaseEnglish p.1 else name
  { name := name, location := p.1, count := (p.2 : Int) }

/-- The second `buildCategories` loop, processing the counted locations
in first-encountered order (the Go source iterates the map, whose order
the language leaves unspecified; the spec and this model fix it to
insertion order) and appending the ones not already present. -/
def addUnknownCategories (cats : List Category) (counts : List (String × Nat)) :
    List Category :=
  counts.foldl
    (fun cats p =>
      if 0 < p.2 then
        if cats.any (fun c => c.location = p.1) then cats
        else cats ++ [unknownCategory p]
      else cats)
    cats

/-- The preferred-order loop of `buildCategories`. -/
def knownCategories (counts : List (String × Nat)) : List Category :=
  preferredOrder.foldl
    (fun cats location =>
      match lookupCount counts location with
      | some count =>
        if 0 < count then
          cats ++ [{ name := locationName location, location := location,
                     count := (count : Int) }]
        else cats
      | none => cats)
    []

/-- `buildCategories` (src/src/main.go lines 224-284): count valid
documents per location, then list the known locations in the fixed
preferred order followed by the remaining locations deduplicated by tag. -/
def buildCategories (documents : List Document) : List Category :=
  let counts := locationCounts documents
  addUnknownCategories (knownCategories counts) counts

/-! ## Navigation state (struct model / App) -/

/-- The bubbletea model (struct `model` in src/src/main.go, struct `App`
in the unnamed variant).  The zero Go value of each field is the default.
The `api` and `renderer` pointer fields are external collaborators and are
not part of the embedded state (see the header comment). -/
structure App where
  allDocuments : List Document := []
  categories : List Category := []
  content : String := ""
  contentLines : List String := []
  currentLocation : String := ""
  documents : List Document := []
  err : Option String := none
  height : Int := 0
  loading : Bool := false
  scrollOffset : Int := 0
  selected : Int := 0
  selectedCategory : Int := 0
  state : State := State.documentListView
  width : Int := 0
  deriving DecidableEq

/-- The messages consumed by `Update`: the three asynchronous completion
messages, terminal resize, and key presses (identified by their
`msg.String()` name, exactly as the Go switch matches them). -/
inductive Msg where
  | allDocumentsLoaded (docs : List Document)
  | documentContent (content : String)
  | errorMsg (e : String)
  | windowSize (width height : Int)
  | key (k : String)
  deriving DecidableEq

/-- `model.filterDocumentsByLocation`. -/
def filterDocumentsByLocation (m : App) (location : String) : List Document :=
  m.allDocuments.filter (fun doc => doc.location = location)

/-- The state produced by `NewModel`/`initialModel`: list view, loading,
selection 0, everything else the zero value. -/
def initialModel : App := { loading := true }

/-- `model.Update` (src/src/main.go lines 298-441).  `render` stands for
the external glamour renderer (`none` = render error).  The `tea.Cmd`
component of the Go return value (the triggered asynchronous loads and
`tea.Quit`) carries no model state and is elided. -/
def update (render : String → Option String) (m : App) (msg : Msg) : App :=
  match msg with
  | Msg.allDocumentsLoaded docs =>
    let filteredDocs := docs.filter (fun doc => goTrimSpace doc.title ≠ "")
    let m1 : App :=
      { m with allDocuments := filteredDocs,
               categories := buildCategories filteredDocs,
               loading := false, err := none, selectedCategory := 0 }
    let m2 : App :=
      match m1.categories with
      | [] => m1
      | c :: _ =>
        { m1 with currentLocation := c.location,
                  documents := filterDocumentsByLocation m1 c.location }
    { m2 with state := State.documentListView }
  | Msg.documentContent content =>
    let contentLines :=
      match render content with
      | some rendered => goSplit rendered
      | none => goSplit content
    { m with content := content, scrollOffset := 0, contentLines := contentLines }
  | Msg.errorMsg e => { m with err := some e, loading := false }
  | Msg.windowSize w h => { m with width := w, height := h }
  | Msg.key k =>
    if k = "ctrl+c" ∨ k = "q" then m
    else if k = "up" then
      if m.state = State.documentListView ∧ 0 < m.documents.length ∧ 0 < m.selected then
        { m with selected := m.selected - 1 }
      else if m.state = State.documentReadView ∧ 0 < m.scrollOffset then
        { m with scrollOffset := m.scrollOffset - 1 }
      else m
    else if k = "down" then
      if m.state = State.documentListView ∧ 0 < m.documents.length ∧
          m.selected < (m.documents.length : Int) - 1 then
        { m with selected := m.selected + 1 }
      else if m.state = State.documentReadView ∧ 0 < m.contentLines.length then
        let maxScroll := (m.contentLines.length : Int) - (m.height - 6)
        let maxScroll := max maxScroll 0
        if m.scrollOffset < maxScroll then { m with scrollOffset := m.scrollOffset + 1 }
        else m
      else m
    else if k = "k" then
      if m.state = State.documentListView ∧ 0 < m.documents.length ∧ 0 < m.selected then
        { m with selected := m.selected - 1 }
      else if m.state = State.documentReadView ∧ 0 < m.scrollOffset then
        { m with scrollOffset := m.scrollOffset - 1 }
      else m
    else if k = "j" then
      if m.state = State.documentListView ∧ 0 < m.documents.length ∧
          m.selected < (m.documents.length : Int) - 1 then
        { m with selected := m.selected + 1 }
      else if m.state = State.documentReadView ∧ 0 < m.contentLines.length then
        let maxScroll := (m.contentLines.length : Int) - (m.height - 6)
        let maxScroll := max maxScroll 0
        if m.scrollOffset < maxScroll then { m with scrollOffset := m.scrollOffset + 1 }
        else m
      else m
    else if k = "ctrl+u" then
      if m.state = State.documentListView ∧ 0 < m.documents.length then
        let pageSize := max 1 (Int.tdiv (m.height - 8) 2)
        { m with selected := max 0 (m.selected - pageSize) }
      else if m.state = State.documentReadView then
        let pageSize := max 1 (Int.tdiv (m.height - 6) 2)
        { m with scrollOffset := max 0 (m.scrollOffset - pageSize) }
      else m
    else if k = "ctrl+d" then
      if m.state = State.documentListView ∧ 0 < m.documents.length then
        let pageSize := max 1 (Int.tdiv (m.height - 8) 2)
        { m with selected := min ((m.documents.length : Int) - 1) (m.selected + pageSize) }
      else if m.state = State.documentReadView ∧ 0 < m.contentLines.length then
        let pageSize := max 1 (Int.tdiv (m.height - 6) 2)
        let maxScroll := (m.contentLines.length : Int) - (m.height - 6)
        let maxScroll := max maxScroll 0
        { m with scrollOffset := min maxScroll (m.scrollOffset + pageSize) }
      else m
    else if k = "left" ∨ k = "h" then
      if m.state = State.documentListView ∧ 0 < m.categories.length ∧
          0 < m.selectedCategory then
        match m.categories.drop (m.selectedCategory - 1).toNat with
        | c :: _ =>
          { m with selectedCategory := m.selectedCategory - 1,
                   currentLocation := c.location,
                   documents := filterDocumentsByLocation m c.location,
                   selected := 0 }
        | [] => m
      else m
    else if k = "right" ∨ k = "l" then
      if m.state = State.documentListView ∧ 0 < m.categories.length ∧
          m.selectedCategory < (m.categories.length : Int) - 1 then
        match m.categories.drop (m.selectedCategory + 1).toNat with
        | c :: _ =>
          { m with selectedCategory := m.selectedCategory + 1,
                   currentLocation := c.location,
                   documents := filterDocumentsByLocation m c.location,
                   selected := 0 }
        | [] => m
      else m
    else if k = "enter" then
      if m.state = State.documentListView ∧ 0 < m.documents.length then
        { m with state := State.documentReadView, content := "" }
      else m
    else if k = "esc" ∨ k = "backspace" then
      if m.state = State.documentReadView then
        { m with state := State.documentListView, content := "", scrollOffset := 0 }
      else m
    else if k = "r" then
      if m.state = State.documentListView then
        { m with loading := true, err := none }
      else m
    else m

/-! ## Viewport pager -/

/-- The list-view visible capacity (renderDocumentList lines 481-482):
terminal height minus 8 chrome rows, floored at 5. -/
def listCapacity (height : Int) : Int := max (height - 8) 5

/-- The reading-view visible capacity (renderDocument lines 533-537):
terminal height minus 6 chrome rows, replaced by 10 when that is
below 1. -/
def readingCapacity (height : Int) : Int :=
  let availableHeight := height - 6
  if availableHeight < 1 then 10 else availableHeight

/-- The visible window of the document list (renderDocumentList lines
484-496): start at 0 and end at the item count; when more items exist
than fit, center the window on the selection and clamp it to the ends. -/
def listWindow (totalItems selected maxVisible : Int) : Int × Int :=
  if totalItems > maxVisible then
    let start := selected - Int.tdiv maxVisible 2
    let start := max start 0
    let e := start + maxVisible
    if e > totalItems then (totalItems - maxVisible, totalItems)
    else (start, e)
  else (0, totalItems)

/-- The `maxScroll` bound recomputed by the reading-view branches of
`Update`. -/
def maxScrollOf (m : App) : Int :=
  max ((m.contentLines.length : Int) - (m.height - 6)) 0

/-! ## Markup converter (htmlToMarkdown)

Each `regexp.MustCompile(...).ReplaceAllString` pass is embedded as a
left-to-right scan that attempts the pattern at every position and, on a
match, emits the replacement and resumes after the match (Go's
ReplaceAllString semantics: leftmost, non-overlapping).  Go regexp uses
leftmost-first (Perl-style) matching; `[^>]*` and `[^"]*` match any
character except the excluded one (including newlines) and `(.*?)` is the
shortest newline-free capture. -/

/-- Consume `[^>]*>` : skip to the first `>` and return the remainder;
`none` when no `>` occurs. -/
def matchAttrs : List Char → Option (List Char)
  | [] => none
  | c :: cs => if c = '>' then some cs else matchAttrs cs

/-- Match the lazy group `(.*?)` followed by the literal `closer`: find
the earliest occurrence of `closer`, with the capture not allowed to
contain a newline (Go's `.` does not match `\n`).  Returns the capture
and the remainder after `closer`. -/
def matchLazyUntil (closer : List Char) : List Char → Option (List Char × List Char)
  | [] => none
  | c :: cs =>
    if closer.isPrefixOf (c :: cs) then some ([], (c :: cs).drop closer.length)
    else if c = '\n' then none
    else
      match matchLazyUntil closer cs with
      | some (cap, rest) => some (c :: cap, rest)
      | none => none

/-- Attempt `<TAG[^>]*>(.*?)</TAG>` at the head of the input; on success
return the replacement `pre ++ capture ++ post` and the remainder. -/
def tryTagPair (tag pre post : List Char) : List Char → Option (List Char × List Char)
  | [] => none
  | c :: cs =>
    if c = '<' then
      if tag.isPrefixOf cs then
        match matchAttrs (cs.drop tag.length) with
        | some afterOpen =>
          match matchLazyUntil ('<' :: '/' :: (tag ++ ['>'])) afterOpen with
          | some (cap, rest) => some (pre ++ cap ++ post, rest)
          | none => none
        | none => none
      else none
    else none

/-- Attempt `<TAG[^>]*>` at the head of the input (also covers
`<br[^>]*/?>` : the optional `/` is absorbed by `[^>]*`). -/
def tryOpenTag (tag rep : List Char) : List Char → Option (List Char × List Char)
  | [] => none
  | c :: cs =>
    if c = '<' then
      if tag.isPrefixOf cs then
        match matchAttrs (cs.drop tag.length) with
        | some rest => some (rep, rest)
        | none => none
      else none
    else none

/-- Attempt a literal pattern at the head of the input. -/
def tryLit (pat rep : List Char) (s : List Char) : Option (List Char × List Char) :=
  if pat ≠ [] ∧ pat.isPrefixOf s then some (rep, s.drop pat.length) else none

/-- The literal `href="`. -/
def hrefLit : List Char := ['h', 'r', 'e', 'f', '=', '"']

/-- All suffixes `t` of `s` with `s = u ++ t`, `u` free of `>`, and
`href="` starting `t`: the candidate split points of the first `[^>]*` of
the anchor pattern, in left-to-right order. -/
def anchorCandidates : List Char → List (List Char)
  | [] => []
  | c :: cs =>
    (if hrefLit.isPrefixOf (c :: cs) then [c :: cs] else []) ++
      (if c = '>' then [] else anchorCandidates cs)

/-- Attempt the anchor pattern `<a[^>]*href="([^"]*)"[^>]*>(.*?)</a>` at
the head of the input, replacing with `[$2]($1)`.  The greedy `[^>]*`
prefers the rightmost viable `href="`, so candidates are tried in
reverse order. -/
def tryAnchor : List Char → Option (List Char × List Char)
  | [] => none
  | c :: cs =>
    if c = '<' then
      match cs with
      | 'a' :: rest =>
        (anchorCandidates rest).reverse.findSome? fun t =>
          let t2 := t.drop hrefLit.length
          let url := t2.takeWhile (fun d => d ≠ '"')
          match t2.drop url.length with
          | '"' :: r4 =>
            match matchAttrs r4 with
            | some r5 =>
              match matchLazyUntil ['<', '/', 'a', '>'] r5 with
              | some (text, r6) =>
                some ('[' :: (text ++ ']' :: '(' :: (url ++ [')'])), r6)
              | none => none
            | none => none
          | _ => none
      | _ => none
    else none

/-- The white-space class `\s` of Go regexp: `[\t\n\f\r ]`. -/
def goWS (c : Char) : Bool :=
  c = '\t' ∨ c = '\n' ∨ c = '\x0c' ∨ c = '\r' ∨ c = ' '

/-- Attempt the collapse pattern `\n\s*\n\s*\n` at the head of the input,
replacing with two newlines.  Because every pattern character is white
space, a match lies inside the white-space run starting here; it exists
exactly when that run holds at least three newlines, and the greedy
leftmost-first match then extends through the run's last newline. -/
def tryCollapse : List Char → Option (List Char × List Char)
  | [] => none
  | c :: cs =>
    if c = '\n' then
      let run := (c :: cs).takeWhile goWS
      if 3 ≤ run.count '\n' then
        let trail := (run.reverse.takeWhile (fun d => ¬ d = '\n')).length
        some (['\n', '\n'], (c :: cs).drop (run.length - trail))
      else none
    else none

/-- Left-to-right ReplaceAll scan: attempt `try1` at every position; on a
match emit its output and resume after the match, otherwise keep the
character.  `fuel` bounds the recursion (every match consumes at least
one character, so the input length is enough fuel). -/
def replaceScan (try1 : List Char → Option (List Char × List Char)) :
    Nat → List Char → List Char
  | 0, s => s
  | _ + 1, [] => []
  | n + 1, c :: cs =>
    match try1 (c :: cs) with
    | some (out, rest) => out ++ replaceScan try1 n rest
    | none => c :: replaceScan try1 n cs

/-- One regexp pass over a string. -/
def runPass (try1 : List Char → Option (List Char × List Char)) (s : List Char) :
    List Char :=
  replaceScan try1 s.length s

/-! ### The bluemonday sanitizer

`bluemonday.StrictPolicy().Sanitize` is a third-party dependency, not
code of this repository.  It is modelled from its documented observable
behaviour: the input is tokenized as HTML, every element is dropped (the
strict policy allows none), and text is re-emitted HTML-escaped
(`html.EscapeString` escapes `&`, `<`, `>`, `"` and the apostrophe), with
the tokenizer's newline normalization (`\r\n` and `\r` become `\n`) and
NUL replacement.  Entity re-normalization inside text is approximated:
an `&` is always escaped, which is faithful whenever the input contains
no pre-existing entity (all inputs reasoned about below). -/

/-- Characters that begin a tag after `<` for the HTML tokenizer. -/
def isTagStart (c : Char) : Bool := c.isAlpha || c = '/' || c = '!' || c = '?'

/-- Skip a tag body through the closing `>`. -/
def dropTag : List Char → List Char
  | [] => []
  | c :: cs => if c = '>' then cs else dropTag cs

/-- HTML-escape one text character (Go `html.EscapeString`). -/
def escapeChar (c : Char) : List Char :=
  if c = '&' then "&amp;".data
  else if c = '<' then "&lt;".data
  else if c = '>' then "&gt;".data
  else if c = '"' then "&#34;".data
  else if c = Char.ofNat 39 then "&#39;".data
  else [c]

/-- Fuelled sanitizer core: strip tags, escape text, normalize newlines
and NUL. -/
def sanitizeCore : Nat → List Char → List Char
  | 0, _ => []
  | _ + 1, [] => []
  | n + 1, c :: cs =>
    if c = '<' then
      match cs with
      | [] => escapeChar '<'
      | d :: _ =>
        if isTagStart d then sanitizeCore n (dropTag cs)
        else escapeChar '<' ++ sanitizeCore n cs
    else if c = '\r' then
      match cs with
      | '\n' :: cs2 => '\n' :: sanitizeCore n cs2
      | _ => '\n' :: sanitizeCore n cs
    else if c = '\x00' then '�' :: sanitizeCore n cs
    else escapeChar c ++ sanitizeCore n cs

/-- Model of `bluemonday.StrictPolicy().Sanitize`. -/
def sanitizeStrict (s : List Char) : List Char := sanitizeCore s.length s

/-- `htmlToMarkdown` (src/src/main.go lines 144-174): the ordered regexp
passes, the strict sanitizer, newline collapsing and trimming. -/
def htmlToMarkdown (html : String) : String :=
  if html = "" then ""
  else
    let content := html.data
    let content := runPass (tryTagPair "h1".data "# ".data []) content
    let content := runPass (tryTagPair "h2".data "## ".data []) content
    let content := runPass (tryTagPair "h3".data "### ".data []) content
    let content := runPass (tryTagPair "h4".data "#### ".data []) content
    let content := runPass (tryTagPair "h5".data "##### ".data []) content
    let content := runPass (tryTagPair "h6".data "###### ".data []) content
    let content := runPass (tryTagPair "strong".data "**".data "**".data) content
    let content := runPass (tryTagPair "b".data "**".data "**".data) content
    let content := runPass (tryTagPair "em".data "*".data "*".data) content
    let content := runPass (tryTagPair "i".data "*".data "*".data) content
    let content := runPass tryAnchor content
    let content := runPass (tryOpenTag "p".data "\n".data) content
    let content := runPass (tryLit "</p>".data "\n".data) content
    let content := runPass (tryOpenTag "br".data "\n".data) content
    let content := runPass (tryOpenTag "blockquote".data "\n> ".data) content
    let content := runPass (tryLit "</blockquote>".data "\n".data) content
    let content := sanitizeStrict content
    let content := runPass tryCollapse content
    goTrimSpace (String.mk content)

/-! ## Content loading (loadDocumentContent) -/

/-- `loadDocumentContent` (src/src/main.go lines 196-222), reduced to the
content string carried by the resulting `documentContentMsg`: prefer the
HTML body, fall back to the summary, convert when a `<` is present, and
prepend a synthesized `# title` heading (plus `*by author*` byline) when
the text does not already contain the title. -/
def loadDocumentContent (doc : Document) : String :=
  let content := doc.htmlContent
  let content := if content = "" then doc.summary else content
  let content := if goContains content "<" then htmlToMarkdown content else content
  if goContains content doc.title then content
  else
    let fullContent := "# " ++ doc.title ++ "\n\n"
    let fullContent :=
      if doc.author ≠ "" then fullContent ++ "*by " ++ doc.author ++ "*\n\n"
      else fullContent
    fullContent ++ content

/-! ## Identity of the converter passes on markup-free text -/

/-- A ReplaceAll scan whose pattern matches at no position is the
identity. -/
theorem replaceScan_eq_self (try1 : List Char → Option (List Char × List Char)) :
    ∀ (n : Nat) (s : List Char), (∀ t, t <:+ s → try1 t = none) →
      replaceScan try1 n s = s := by
  intro n
  induction n with
  | zero => intro s _; rfl
  | succ n ih =>
    intro s h
    cases s with
    | nil => rfl
    | cons c cs =>
      show (match try1 (c :: cs) with
            | some (out, rest) => out ++ replaceScan try1 n rest
            | none => c :: replaceScan try1 n cs) = c :: cs
      rw [h (c :: cs) List.suffix_rfl,
        ih cs (fun t ht => h t (ht.trans (List.suffix_cons c cs)))]

/-- The tag-pair pattern needs a `<` to start. -/
theorem tryTagPair_eq_none (tag pre post : List Char) (t : List Char)
    (h : ∀ c ∈ t, c ≠ '<') : tryTagPair tag pre post t = none := by
  cases t with
  | nil => rfl
  | cons c cs => simp [tryTagPair, h c (List.mem_cons_self c cs)]

/-- The open-tag pattern needs a `<` to start. -/
theorem tryOpenTag_eq_none (tag rep : List Char) (t : List Char)
    (h : ∀ c ∈ t, c ≠ '<') : tryOpenTag tag rep t = none := by
  cases t with
  | nil => rfl
  | cons c cs => simp [tryOpenTag, h c (List.mem_cons_self c cs)]

/-- The anchor pattern needs a `<` to start. -/
theorem tryAnchor_eq_none (t : List Char) (h : ∀ c ∈ t, c ≠ '<') :
    tryAnchor t = none := by
  cases t with
  | nil => rfl
  | cons c cs => simp [tryAnchor, h c (List.mem_cons_self c cs)]

/-- A literal pattern beginning with `<` cannot match in `<`-free text. -/
theorem tryLit_eq_none (p rep : List Char) (t : List Char)
    (h : ∀ c ∈ t, c ≠ '<') : tryLit ('<' :: p) rep t = none := by
  cases t with
  | nil => simp [tryLit, List.isPrefixOf]
  | cons c cs =>
    have : ('<' :: p).isPrefixOf (c :: cs) = false := by
      simp [List.isPrefixOf]
      intro hc
      exact False.elim ((h c (List.mem_cons_self c cs)) hc.symm)
    simp [tryLit, this]

/-- Membership in a suffix gives membership in the whole list. -/
theorem mem_of_mem_suffix {t s : List Char} {c : Char} (ht : t <:+ s) (hc : c ∈ t) :
    c ∈ s := ht.subset hc

/-- Somewhere in the text, three newlines separated only by white space
occur (the shape collapsed by the `\n\s*\n\s*\n` pass). -/
def hasTripleNewlineRun (l : List Char) : Bool :=
  l.tails.any (fun t => 3 ≤ (t.takeWhile goWS).count '\n')

/-- Without a triple-newline run the collapse pattern never matches. -/
theorem tryCollapse_eq_none {s t : List Char}
    (hs : hasTripleNewlineRun s = false) (ht : t <:+ s) : tryCollapse t = none := by
  have hcnt : ¬ (3 ≤ (t.takeWhile goWS).count '\n') := by
    intro hge
    have : hasTripleNewlineRun s = true := by
      unfold hasTripleNewlineRun
      rw [List.any_eq_true]
      exact ⟨t, (List.mem_tails t s).2 ht, by simpa using hge⟩
    rw [this] at hs; exact Bool.noConfusion hs
  cases t with
  | nil => rfl
  | cons c cs =>
    by_cases hc : c = '\n'
    · simp only [tryCollapse, if_pos hc]
      exact if_neg hcnt
    · simp only [tryCollapse, if_neg hc]

/-- The sanitizer is the identity on text free of markup and escapable
characters. -/
theorem sanitizeCore_eq_self (s : List Char)
    (h : ∀ c ∈ s, c ≠ '<' ∧ c ≠ '>' ∧ c ≠ '&' ∧ c ≠ '"' ∧ c ≠ Char.ofNat 39 ∧
      c ≠ '\r' ∧ c ≠ '\x00') :
    sanitizeCore s.length s = s := by
  induction s with
  | nil => rfl
  | cons c cs ih =>
    obtain ⟨h1, h2, h3, h4, h5, h6, h7⟩ := h c (List.mem_cons_self c cs)
    show sanitizeCore (cs.length + 1) (c :: cs) = c :: cs
    unfold sanitizeCore
    rw [if_neg h1, if_neg h6, if_neg h7]
    have hesc : escapeChar c = [c] := by
      unfold escapeChar
      rw [if_neg h3, if_neg h1, if_neg h2, if_neg h4, if_neg h5]
    rw [hesc, ih (fun d hd => h d (List.mem_cons_of_mem c hd))]
    rfl

/-! ## Claim C6: the converter on already-plain text -/

/-- C6 counterexample: `"a&b"` contains no angle bracket and no
triple-newline run, yet `htmlToMarkdown` does not return it trimmed: the
strict sanitizer HTML-escapes the ampersand. -/
theorem htmlToMarkdown_escapes_ampersand :
    htmlToMarkdown "a&b" = "a&amp;b" ∧ goTrimSpace "a&b" = "a&b" ∧
    ("a&amp;b" : String) ≠ "a&b" := by decide

/-- C6 (amended): the converter is the identity (up to trimming) on text
that contains none of the characters the pipeline acts on — no angle
brackets, no characters the sanitizer escapes or normalizes (`&`, `"`,
the apostrophe, carriage return, NUL), and no three newlines separated
only by white space. -/
theorem htmlToMarkdown_plain_eq_trim (s : String)
    (hchars : ∀ c ∈ s.data, c ≠ '<' ∧ c ≠ '>' ∧ c ≠ '&' ∧ c ≠ '"' ∧
      c ≠ Char.ofNat 39 ∧ c ≠ '\r' ∧ c ≠ '\x00')
    (hnl : hasTripleNewlineRun s.data = false) :
    htmlToMarkdown s = goTrimSpace s := by
  have hlt : ∀ c ∈ s.data, c ≠ '<' := fun c hc => (hchars c hc).1
  have hpair : ∀ tag pre post, runPass (tryTagPair tag pre post) s.data = s.data := by
    intro tag pre post
    exact replaceScan_eq_self _ _ _
      (fun t ht => tryTagPair_eq_none tag pre post t
        (fun c hc => hlt c (mem_of_mem_suffix ht hc)))
  have hopen : ∀ tag rep, runPass (tryOpenTag tag rep) s.data = s.data := by
    intro tag rep
    exact replaceScan_eq_self _ _ _
      (fun t ht => tryOpenTag_eq_none tag rep t
        (fun c hc => hlt c (mem_of_mem_suffix ht hc)))
  have hanchor : runPass tryAnchor s.data = s.data :=
    replaceScan_eq_self _ _ _
      (fun t ht => tryAnchor_eq_none t (fun c hc => hlt c (mem_of_mem_suffix ht hc)))
  have hlitp : ∀ p rep, runPass (tryLit ('<' :: p) rep) s.data = s.data := by
    intro p rep
    exact replaceScan_eq_self _ _ _
      (fun t ht => tryLit_eq_none p rep t
        (fun c hc => hlt c (mem_of_mem_suffix ht hc)))
  have hsan : sanitizeStrict s.data = s.data :=
    sanitizeCore_eq_self s.data hchars
  have hcol : runPass tryCollapse s.data = s.data :=
    replaceScan_eq_self _ _ _ (fun t ht => tryCollapse_eq_none hnl ht)
  by_cases hs : s = ""
  · subst hs; rfl
  · show htmlToMarkdown s = goTrimSpace s
    unfold htmlToMarkdown
    rw [if_neg hs]
    show goTrimSpace (String.mk (runPass tryCollapse (sanitizeStrict
      (runPass (tryLit "</blockquote>".data "\n".data)
      (runPass (tryOpenTag "blockquote".data "\n> ".data)
      (runPass (tryOpenTag "br".data "\n".data)
      (runPass (tryLit "</p>".data "\n".data)
      (runPass (tryOpenTag "p".data "\n".data)
      (runPass tryAnchor
      (runPass (tryTagPair "i".data "*".data "*".data)
      (runPass (tryTagPair "em".data "*".data "*".data)
      (runPass (tryTagPair "b".data "**".data "**".data)
      (runPass (tryTagPair "strong".data "**".data "**".data)
      (runPass (tryTagPair "h6".data "###### ".data [])
      (runPass (tryTagPair "h5".data "##### ".data [])
      (runPass (tryTagPair "h4".data "#### ".data [])
      (runPass (tryTagPair "h3".data "### ".data [])
      (runPass (tryTagPair "h2".data "## ".data [])
      (runPass (tryTagPair "h1".data "# ".data []) s.data)))))))))))))))))))
        = goTrimSpace s
    rw [hpair, hpair, hpair, hpair, hpair, hpair, hpair, hpair, hpair, hpair,
      hanchor, hopen]
    rw [show ("</p>".data : List Char) = '<' :: "/p>".data from rfl, hlitp]
    rw [hopen, hopen]
    rw [show ("</blockquote>".data : List Char) = '<' :: "/blockquote>".data from rfl,
      hlitp]
    rw [hsan, hcol]

/-- Witness for C6 (amended) at a concrete plain string. -/
theorem htmlToMarkdown_plain_eq_trim_witness :
    htmlToMarkdown " hello\nworld " = goTrimSpace " hello\nworld " ∧
    goTrimSpace " hello\nworld " = "hello\nworld" :=
  ⟨htmlToMarkdown_plain_eq_trim " hello\nworld " (by decide) (by decide), by decide⟩

/-! ## Claim C9: the round-trip example -/

/-- C9: converting the sample heading-and-paragraph markup yields
`# Title` on one line and `Hello **world**` on the next, with no angle
bracket left anywhere in the output. -/
theorem htmlToMarkdown_roundTrip_sample :
    goSplit (htmlToMarkdown "<h1>Title</h1><p>Hello <strong>world</strong></p>") =
      ["# Title", "Hello **world**"] ∧
    "# Title" ∈ goSplit (htmlToMarkdown "<h1>Title</h1><p>Hello <strong>world</strong></p>") ∧
    "Hello **world**" ∈
      goSplit (htmlToMarkdown "<h1>Title</h1><p>Hello <strong>world</strong></p>") ∧
    '<' ∉ (htmlToMarkdown "<h1>Title</h1><p>Hello <strong>world</strong></p>").data ∧
    '>' ∉ (htmlToMarkdown "<h1>Title</h1><p>Hello <strong>world</strong></p>").data := by
  decide

/-! ## Claim C8: empty body and empty summary -/

/-- Appending the empty string is the identity. -/
theorem string_append_empty (s : String) : s ++ "" = s := by
  cases s with
  | mk data =>
    show String.mk (data ++ []) = String.mk data
    rw [List.append_nil]

/-- C8: for a document with a non-blank title, empty HTML body, and empty
summary, the loaded content is exactly the synthesized `# title` heading
followed by the `*by author*` byline when an author is present. -/
theorem loadDocumentContent_empty_body (doc : Document)
    (hvalid : goTrimSpace doc.title ≠ "") (hhtml : doc.htmlContent = "")
    (hsum : doc.summary = "") :
    loadDocumentContent doc =
      if doc.author ≠ "" then "# " ++ doc.title ++ "\n\n" ++ "*by " ++ doc.author ++ "*\n\n"
      else "# " ++ doc.title ++ "\n\n" := by
  have htitle : doc.title ≠ "" := by
    intro h
    apply hvalid
    rw [h]
    rfl
  have hdata : doc.title.data ≠ [] := by
    intro h
    exact htitle (String.ext h)
  have hne : containsSub "".data doc.title.data = false := by
    cases hd : doc.title.data with
    | nil => exact absurd hd hdata
    | cons a as => rfl
  unfold loadDocumentContent
  rw [hhtml, hsum]
  have h1 : goContains "" "<" = false := rfl
  have h2 : goContains "" doc.title = false := hne
  by_cases ha : doc.author = ""
  · simp [h1, h2, ha, string_append_empty]
  · simp [h1, h2, ha, string_append_empty]

/-- Witness for C8: a document with title `T` and author `A`. -/
theorem loadDocumentContent_empty_body_witness :
    loadDocumentContent { title := "T", author := "A" } = "# T\n\n*by A*\n\n" :=
  (loadDocumentContent_empty_body { title := "T", author := "A" }
    (by decide) rfl rfl).trans (by decide)

/-- Documents used by the concrete counterexamples. -/
def docA : Document := { title := "A", location := "new" }

/-- Second sample document. -/
def docB : Document := { title := "B", location := "new" }

/-- Third sample document. -/
def docC : Document := { title := "C", location := "new" }

/-- A renderer that always fails (the fallback path of the source). -/
def noRender : String → Option String := fun _ => none

/-- Fold a list of messages through `update`. -/
def applyMsgs (render : String → Option String) (m : App) (msgs : List Msg) : App :=
  msgs.foldl (update render) m

/-! ## The location-count map

Lemmas about `bumpCount`/`locationCounts`, the association-list model of
the Go `locationCounts` map. -/

/-- The number of valid documents at location `k`: what
`locationCounts[k]` counts. -/
def countValid (docs : List Document) (k : String) : Nat :=
  (docs.filter (fun d => goTrimSpace d.title ≠ "" ∧ d.location = k)).length

/-- The counting fold of `locationCounts`, generalized over the initial
map. -/
def countsFold (docs : List Document) (m : List (String × Nat)) : List (String × Nat) :=
  docs.foldl
    (fun m doc => if goTrimSpace doc.title ≠ "" then bumpCount m doc.location else m) m

/-- `locationCounts` is the counting fold from the empty map. -/
theorem locationCounts_eq_countsFold (docs : List Document) :
    locationCounts docs = countsFold docs [] := rfl

/-- Lookup after a bump: the bumped key gains one, others are unchanged. -/
theorem lookupCount_bumpCount (m : List (String × Nat)) (k j : String) :
    lookupCount (bumpCount m k) j =
      if k = j then some ((lookupCount m j).getD 0 + 1) else lookupCount m j := by
  induction m with
  | nil => by_cases h : k = j <;> simp [bumpCount, lookupCount, h]
  | cons p rest ih =>
    obtain ⟨k1, v⟩ := p
    by_cases h1 : k1 = k
    · subst h1
      by_cases h2 : k1 = j <;> simp [bumpCount, lookupCount, h2]
    · by_cases h2 : k1 = j
      · subst h2
        have hkj : ¬ k = k1 := fun hc => h1 hc.symm
        simp [bumpCount, lookupCount, h1, hkj]
      · simp [bumpCount, lookupCount, h1, h2, ih]

/-- Keys after a bump: unchanged when `k` is present, extended by `k`
otherwise. -/
theorem keys_bumpCount (m : List (String × Nat)) (k : String) :
    (bumpCount m k).map Prod.fst =
      if lookupCount m k = none then m.map Prod.fst ++ [k] else m.map Prod.fst := by
  induction m with
  | nil => simp [bumpCount, lookupCount]
  | cons p rest ih =>
    obtain ⟨k1, v⟩ := p
    by_cases h1 : k1 = k
    · simp [bumpCount, lookupCount, h1]
    · simp [bumpCount, lookupCount, h1, ih]
      split_ifs <;> simp

/-- A key is absent exactly when its lookup is `none`. -/
theorem lookupCount_eq_none_iff (m : List (String × Nat)) (k : String) :
    lookupCount m k = none ↔ k ∉ m.map Prod.fst := by
  induction m with
  | nil => simp [lookupCount]
  | cons p rest ih =>
    obtain ⟨k1, v⟩ := p
    by_cases h1 : k1 = k
    · subst h1
      simp [lookupCount]
    · simp only [lookupCount, if_neg h1, List.map_cons, List.mem_cons, ih]
      constructor
      · intro h hm
        rcases hm with hm | hm
        · exact h1 hm.symm
        · exact h hm
      · intro h hm
        exact h (Or.inr hm)

/-- With distinct keys, membership coincides with lookup. -/
theorem mem_iff_lookupCount (m : List (String × Nat)) (k : String) (v : Nat)
    (hnd : (m.map Prod.fst).Nodup) : (k, v) ∈ m ↔ lookupCount m k = some v := by
  induction m with
  | nil => simp [lookupCount]
  | cons p rest ih =>
    obtain ⟨k1, v1⟩ := p
    simp only [List.map_cons, List.nodup_cons] at hnd
    obtain ⟨hk1, hnd2⟩ := hnd
    by_cases h1 : k1 = k
    · subst h1
      simp only [lookupCount, if_pos rfl, List.mem_cons]
      constructor
      · rintro (h | h)
        · simp_all
        · exact absurd (List.mem_map_of_mem Prod.fst h) hk1
      · rintro h
        left
        simp_all
    · simp only [lookupCount, if_neg h1, List.mem_cons]
      rw [← ih hnd2]
      constructor
      · rintro (h | h)
        · exact absurd (congrArg Prod.fst h.symm) h1
        · exact h
      · exact fun h => Or.inr h

/-- The counting fold preserves distinct keys. -/
theorem keys_countsFold_nodup (docs : List Document) (m : List (String × Nat))
    (h : (m.map Prod.fst).Nodup) : ((countsFold docs m).map Prod.fst).Nodup := by
  induction docs generalizing m with
  | nil => exact h
  | cons d ds ih =>
    have hstep : countsFold (d :: ds) m =
        countsFold ds (if goTrimSpace d.title ≠ "" then bumpCount m d.location else m) := rfl
    rw [hstep]
    by_cases hv : goTrimSpace d.title ≠ ""
    · rw [if_pos hv]
      apply ih
      rw [keys_bumpCount]
      split_ifs with hnone
      · exact List.Nodup.append h (List.nodup_singleton _)
          (by
            intro a ha hb
            simp only [List.mem_singleton] at hb
            subst hb
            exact (lookupCount_eq_none_iff m d.location).1 hnone ha)
      · exact h
    · rw [if_neg hv]
      exact ih m h

/-- Distinct keys of the location counts. -/
theorem keys_locationCounts_nodup (docs : List Document) :
    ((locationCounts docs).map Prod.fst).Nodup := by
  rw [locationCounts_eq_countsFold]
  exact keys_countsFold_nodup docs [] (by simp)

/-- Lookup through the counting fold: the initial value plus the number
of valid documents at the key. -/
theorem lookupCount_countsFold (docs : List Document) (m : List (String × Nat))
    (k : String) :
    lookupCount (countsFold docs m) k =
      match lookupCount m k with
      | some v => some (v + countValid docs k)
      | none => if countValid docs k = 0 then none else some (countValid docs k) := by
  induction docs generalizing m with
  | nil =>
    show lookupCount m k = _
    cases h : lookupCount m k <;> simp [countValid]
  | cons d ds ih =>
    have hstep : countsFold (d :: ds) m =
        countsFold ds (if goTrimSpace d.title ≠ "" then bumpCount m d.location else m) := rfl
    rw [hstep]
    by_cases hv : goTrimSpace d.title ≠ ""
    · rw [if_pos hv]
      rw [ih]
      have hcv : countValid (d :: ds) k =
          (if d.location = k then 1 else 0) + countValid ds k := by
        unfold countValid
        by_cases hl : d.location = k <;> simp [List.filter_cons, hv, hl] <;> omega
      rw [lookupCount_bumpCount, hcv]
      by_cases hl : d.location = k
      · rw [if_pos hl, if_pos hl]
        cases h : lookupCount m k <;> simp [h] <;> omega
      · rw [if_neg hl, if_neg hl]
        simp
    · rw [if_neg hv]
      rw [ih]
      have hcv : countValid (d :: ds) k = countValid ds k := by
        unfold countValid
        simp only [ne_eq, not_not] at hv
        simp [List.filter_cons, hv]
      rw [hcv]

/-- Lookup in the location counts is the valid-document count, absent
when zero. -/
theorem lookupCount_locationCounts (docs : List Document) (k : String) :
    lookupCount (locationCounts docs) k =
      if countValid docs k = 0 then none else some (countValid docs k) := by
  rw [locationCounts_eq_countsFold, lookupCount_countsFold]
  rfl

/-- Every entry of the location counts carries a positive count. -/
theorem locationCounts_pos (docs : List Document) (p : String × Nat)
    (hp : p ∈ locationCounts docs) : 0 < p.2 := by
  obtain ⟨k, v⟩ := p
  rw [mem_iff_lookupCount _ _ _ (keys_locationCounts_nodup docs),
    lookupCount_locationCounts] at hp
  by_cases h : countValid docs k = 0
  · rw [if_pos h] at hp
    exact absurd hp (by simp)
  · rw [if_neg h] at hp
    have hv := Option.some.inj hp
    omega

/-- The total of the counts after a bump grows by one. -/
theorem sum_bumpCount (m : List (String × Nat)) (k : String) :
    ((bumpCount m k).map Prod.snd).sum = (m.map Prod.snd).sum + 1 := by
  induction m with
  | nil => simp [bumpCount]
  | cons p rest ih =>
    obtain ⟨k1, v⟩ := p
    by_cases h1 : k1 = k <;> simp [bumpCount, h1, ih] <;> omega

/-- The total of the counts equals the number of valid documents. -/
theorem sum_countsFold (docs : List Document) (m : List (String × Nat)) :
    (((countsFold docs m).map Prod.snd).sum : Nat) =
      (m.map Prod.snd).sum + (docs.filter (fun d => goTrimSpace d.title ≠ "")).length := by
  induction docs generalizing m with
  | nil => simp [countsFold]
  | cons d ds ih =>
    have hstep : countsFold (d :: ds) m =
        countsFold ds (if goTrimSpace d.title ≠ "" then bumpCount m d.location else m) := rfl
    rw [hstep]
    by_cases hv : goTrimSpace d.title ≠ ""
    · rw [if_pos hv]
      rw [ih, sum_bumpCount]
      simp [List.filter_cons, hv]
      omega
    · rw [if_neg hv]
      rw [ih]
      simp only [ne_eq, not_not] at hv
      simp [List.filter_cons, hv]

/-- The total of the location counts is the number of valid documents. -/
theorem sum_locationCounts (docs : List Document) :
    (((locationCounts docs).map Prod.snd).sum : Nat) =
      (docs.filter (fun d => goTrimSpace d.title ≠ "")).length := by
  rw [locationCounts_eq_countsFold, sum_countsFold]
  simp

/-! ## Structure of the category builder output -/

/-- The category contributed by a known location, when its count is
present and positive. -/
def knownEntry (counts : List (String × Nat)) (location : String) : Option Category :=
  match lookupCount counts location with
  | some count =>
    if 0 < count then
      some { name := locationName location, location := location, count := (count : Int) }
    else none
  | none => none

/-- `filterMap` respects pointwise-equal functions. -/
theorem filterMap_congr_fun {α β : Type} (f g : α → Option β) (l : List α)
    (h : ∀ x ∈ l, f x = g x) : l.filterMap f = l.filterMap g := by
  induction l with
  | nil => rfl
  | cons x l ih =>
    rw [List.filterMap_cons, List.filterMap_cons, h x (List.mem_cons_self x l),
      ih (fun y hy => h y (List.mem_cons_of_mem x hy))]

/-- The preferred-order loop, characterized as a `filterMap`. -/
theorem knownFold_eq (counts : List (String × Nat)) (l : List String)
    (init : List Category) :
    l.foldl
      (fun cats location =>
        match lookupCount counts location with
        | some count =>
          if 0 < count then
            cats ++ [{ name := locationName location, location := location,
                       count := (count : Int) }]
          else cats
        | none => cats)
      init = init ++ l.filterMap (knownEntry counts) := by
  induction l generalizing init with
  | nil => simp
  | cons x l ih =>
    rw [List.foldl_cons, List.filterMap_cons]
    cases h : lookupCount counts x with
    | none =>
      simp only [h]
      rw [ih]
      simp [knownEntry, h]
    | some c =>
      by_cases hc : 0 < c
      · simp only [h, if_pos hc]
        rw [ih]
        simp [knownEntry, h, hc]
      · simp only [h, if_neg hc]
        rw [ih]
        simp [knownEntry, h, hc]

/-- `knownCategories` is the `filterMap` of `knownEntry` over the
preferred order. -/
theorem knownCategories_eq (counts : List (String × Nat)) :
    knownCategories counts = preferredOrder.filterMap (knownEntry counts) := by
  unfold knownCategories
  rw [knownFold_eq]
  rfl

/-- What a successful `knownEntry` looks like. -/
theorem knownEntry_eq_some_iff (counts : List (String × Nat)) (a : String)
    (cat : Category) :
    knownEntry counts a = some cat ↔
      ∃ n, lookupCount counts a = some n ∧ 0 < n ∧
        cat = { name := locationName a, location := a, count := (n : Int) } := by
  unfold knownEntry
  cases hl : lookupCount counts a with
  | none => simp
  | some n =>
    by_cases hn : 0 < n
    · simp only [if_pos hn]
      constructor
      · intro h
        exact ⟨n, rfl, hn, (Option.some.inj h).symm⟩
      · rintro ⟨n1, hn1, -, hcat⟩
        rw [← Option.some.inj hn1] at hcat
        rw [hcat]
    · simp only [if_neg hn]
      constructor
      · intro h
        exact absurd h (by simp)
      · rintro ⟨n1, hn1, hpos1, -⟩
        rw [← Option.some.inj hn1] at hpos1
        exact absurd hpos1 hn

/-- Some known category carries location `k` exactly when `k` is a
preferred location with a positive count. -/
theorem knownCategories_any_location (counts : List (String × Nat)) (k : String) :
    (knownCategories counts).any (fun c => c.location = k) = true ↔
      k ∈ preferredOrder ∧ ∃ n, lookupCount counts k = some n ∧ 0 < n := by
  rw [knownCategories_eq, List.any_eq_true]
  constructor
  · rintro ⟨cat, hmem, hloc⟩
    rw [List.mem_filterMap] at hmem
    obtain ⟨loc, hlocmem, hentry⟩ := hmem
    obtain ⟨n, hn, hpos, hcat⟩ := (knownEntry_eq_some_iff counts loc cat).1 hentry
    have hcl : cat.location = loc := by rw [hcat]
    have hk : loc = k := by
      rw [← hcl]
      exact of_decide_eq_true hloc
    subst hk
    exact ⟨hlocmem, n, hn, hpos⟩
  · rintro ⟨hk, n, hn, hpos⟩
    refine ⟨{ name := locationName k, location := k, count := (n : Int) }, ?_, by simp⟩
    rw [List.mem_filterMap]
    exact ⟨k, hk, (knownEntry_eq_some_iff counts k _).2 ⟨n, hn, hpos, rfl⟩⟩

/-- The second loop appends exactly the counted locations not already
present, in order. -/
theorem addUnknownCategories_eq (cats0 : List Category) (counts : List (String × Nat))
    (hnd : (counts.map Prod.fst).Nodup) (hpos : ∀ p ∈ counts, 0 < p.2) :
    addUnknownCategories cats0 counts =
      cats0 ++ (counts.filter
        (fun p => !(cats0.any (fun c => c.location = p.1)))).map unknownCategory := by
  induction counts generalizing cats0 with
  | nil => simp [addUnknownCategories]
  | cons p rest ih =>
    simp only [List.map_cons, List.nodup_cons] at hnd
    obtain ⟨hp1, hnd2⟩ := hnd
    have hpos2 : ∀ q ∈ rest, 0 < q.2 := fun q hq => hpos q (List.mem_cons_of_mem p hq)
    have hstep : addUnknownCategories cats0 (p :: rest) =
        addUnknownCategories
          (if 0 < p.2 then
            if cats0.any (fun c => c.location = p.1) then cats0
            else cats0 ++ [unknownCategory p]
          else cats0) rest := rfl
    rw [hstep, if_pos (hpos p (List.mem_cons_self p rest))]
    by_cases hfound : cats0.any (fun c => c.location = p.1)
    · rw [if_pos hfound, ih cats0 hnd2 hpos2]
      rw [List.filter_cons_of_neg (by simp [hfound])]
    · rw [if_neg hfound, ih (cats0 ++ [unknownCategory p]) hnd2 hpos2]
      have hcong : rest.filter
          (fun q => !((cats0 ++ [unknownCategory p]).any (fun c => c.location = q.1))) =
        rest.filter (fun q => !(cats0.any (fun c => c.location = q.1))) := by
        apply List.filter_congr
        intro q hq
        have hq1 : ¬ (unknownCategory p).location = q.1 := by
          show ¬ p.1 = q.1
          intro hc
          exact hp1 (hc ▸ List.mem_map_of_mem Prod.fst hq)
        simp [List.any_append, hq1]
      rw [hcong, List.filter_cons_of_pos (by simp [hfound]), List.map_cons]
      simp

/-- The location/count pairs of the built categories are a permutation of
the location-count map: each counted location yields exactly one category
carrying its count. -/
theorem buildCategories_pairs_perm (docs : List Document) :
    ((buildCategories docs).map (fun c => (c.location, c.count))).Perm
      ((locationCounts docs).map (fun p => (p.1, (p.2 : Int)))) := by
  have hnd := keys_locationCounts_nodup docs
  have hpos := locationCounts_pos docs
  rw [show buildCategories docs =
    addUnknownCategories (knownCategories (locationCounts docs)) (locationCounts docs)
    from rfl]
  rw [addUnknownCategories_eq _ _ hnd hpos, List.map_append]
  have hany : ∀ p ∈ locationCounts docs,
      ((knownCategories (locationCounts docs)).any (fun c => c.location = p.1) = true ↔
        p.1 ∈ preferredOrder) := by
    intro p hp
    rw [knownCategories_any_location]
    constructor
    · exact fun h => h.1
    · intro h
      exact ⟨h, p.2, (mem_iff_lookupCount _ _ _ hnd).1 hp, hpos p hp⟩
  have hfilter : (locationCounts docs).filter
      (fun p => !((knownCategories (locationCounts docs)).any (fun c => c.location = p.1))) =
    (locationCounts docs).filter (fun p => !(decide (p.1 ∈ preferredOrder))) := by
    apply List.filter_congr
    intro p hp
    have hiff := hany p hp
    by_cases hq : p.1 ∈ preferredOrder
    · rw [hiff.2 hq]
      simp [hq]
    · have hfalse : ((knownCategories (locationCounts docs)).any
          (fun c => c.location = p.1)) = false := by
        rw [← Bool.not_eq_true]
        exact fun hc => hq (hiff.1 hc)
      rw [hfalse]
      simp [hq]
  rw [hfilter]
  have hunknown : ((locationCounts docs).filter
      (fun p => !(decide (p.1 ∈ preferredOrder)))).map
        (fun cat => ((unknownCategory cat).location, (unknownCategory cat).count)) =
    ((locationCounts docs).filter (fun p => !(decide (p.1 ∈ preferredOrder)))).map
      (fun p => (p.1, (p.2 : Int))) := by
    apply List.map_congr_left
    intro p hp
    rfl
  rw [List.map_map]
  rw [show ((fun c => (c.location, c.count)) ∘ unknownCategory) =
    (fun cat => ((unknownCategory cat).location, (unknownCategory cat).count)) from rfl]
  rw [hunknown]
  -- the known part is a permutation of the preferred-keyed entries
  have hknownperm : ((knownCategories (locationCounts docs)).map
      (fun c => (c.location, c.count))).Perm
    (((locationCounts docs).filter (fun p => decide (p.1 ∈ preferredOrder))).map
      (fun p => (p.1, (p.2 : Int)))) := by
    apply (List.perm_ext_iff_of_nodup ?_ ?_).2
    · intro pr
      constructor
      · intro hmem
        rw [List.mem_map] at hmem
        obtain ⟨cat, hcat, hpr⟩ := hmem
        rw [knownCategories_eq, List.mem_filterMap] at hcat
        obtain ⟨loc, hloc, hentry⟩ := hcat
        obtain ⟨n, hn, hnpos, hcateq⟩ := (knownEntry_eq_some_iff _ _ _).1 hentry
        rw [List.mem_map]
        refine ⟨(loc, n), ?_, ?_⟩
        · rw [List.mem_filter]
          exact ⟨(mem_iff_lookupCount _ _ _ hnd).2 hn, by simp [hloc]⟩
        · rw [← hpr, hcateq]
      · intro hmem
        rw [List.mem_map] at hmem
        obtain ⟨p, hp, hpr⟩ := hmem
        rw [List.mem_filter] at hp
        obtain ⟨hpmem, hppref⟩ := hp
        rw [List.mem_map]
        refine ⟨{ name := locationName p.1, location := p.1, count := (p.2 : Int) }, ?_, ?_⟩
        · rw [knownCategories_eq, List.mem_filterMap]
          refine ⟨p.1, by simpa using hppref, ?_⟩
          exact (knownEntry_eq_some_iff _ _ _).2
            ⟨p.2, (mem_iff_lookupCount _ _ _ hnd).1 hpmem, hpos p hpmem, rfl⟩
        · rw [← hpr]
    · -- left side has pairwise-distinct locations
      rw [knownCategories_eq, List.map_filterMap]
      apply List.Nodup.filterMap
      · intro a a1 b hb hb1
        simp only [Option.mem_def, Option.map_eq_some'] at hb hb1
        obtain ⟨cat, hcat, hpair⟩ := hb
        obtain ⟨cat1, hcat1, hpair1⟩ := hb1
        obtain ⟨n, -, -, hc⟩ := (knownEntry_eq_some_iff _ _ _).1 hcat
        obtain ⟨n1, -, -, hc1⟩ := (knownEntry_eq_some_iff _ _ _).1 hcat1
        have h1 : b.1 = a := by rw [← hpair, hc]
        have h2 : b.1 = a1 := by rw [← hpair1, hc1]
        rw [← h1, h2]
      · decide
    · -- right side: distinct keys give distinct pairs
      have hmapnd : ((locationCounts docs).map (fun p => (p.1, (p.2 : Int)))).Nodup := by
        apply List.Nodup.of_map Prod.fst
        rw [List.map_map]
        exact hnd
      exact ((List.filter_sublist _).map _).nodup hmapnd
  refine List.Perm.trans (hknownperm.append_right _) ?_
  rw [← List.map_append]
  exact (List.filter_append_perm _ _).map _

/-! ## Claim C7: counts are positive and sum to the matched documents -/

/-- Casting the counts to integers commutes with summing. -/
theorem sum_map_natCast (l : List (String × Nat)) :
    (l.map (fun p => ((p.2 : Nat) : Int))).sum = (((l.map Prod.snd).sum : Nat) : Int) := by
  induction l with
  | nil => rfl
  | cons p rest ih =>
    simp only [List.map_cons, List.sum_cons, ih]
    push_cast
    ring

/-- Every valid document's location appears among the built categories. -/
theorem buildCategories_covers (docs : List Document) (d : Document)
    (hd : d ∈ docs) (hv : goTrimSpace d.title ≠ "") :
    (buildCategories docs).any (fun c => c.location = d.location) = true := by
  have hcv : 0 < countValid docs d.location := by
    have hmem : d ∈ docs.filter (fun x => goTrimSpace x.title ≠ "" ∧ x.location = d.location) :=
      List.mem_filter.2 ⟨hd, by simp [hv]⟩
    unfold countValid
    exact List.length_pos.2 (fun hnil => by rw [hnil] at hmem; exact List.not_mem_nil d hmem)
  have hlk : lookupCount (locationCounts docs) d.location = some (countValid docs d.location) := by
    rw [lookupCount_locationCounts, if_neg (by omega)]
  have hmemc : (d.location, countValid docs d.location) ∈ locationCounts docs :=
    (mem_iff_lookupCount _ _ _ (keys_locationCounts_nodup docs)).2 hlk
  have hpair : (d.location, (countValid docs d.location : Int)) ∈
      (locationCounts docs).map (fun p => (p.1, (p.2 : Int))) := by
    rw [List.mem_map]
    exact ⟨_, hmemc, rfl⟩
  have hin := (buildCategories_pairs_perm docs).mem_iff.2 hpair
  rw [List.mem_map] at hin
  obtain ⟨cat, hcat, hc⟩ := hin
  rw [List.any_eq_true]
  refine ⟨cat, hcat, ?_⟩
  have : cat.location = d.location := congrArg Prod.fst hc
  simp [this]

/-- C7: every built category has a positive count, and the counts sum to
the number of valid documents whose location matches some built
category. -/
theorem buildCategories_pos_sum (docs : List Document) :
    (∀ cat ∈ buildCategories docs, 0 < cat.count) ∧
    ((buildCategories docs).map (fun c => c.count)).sum =
      ((docs.filter (fun d => goTrimSpace d.title ≠ "" ∧
        (buildCategories docs).any (fun c => c.location = d.location))).length : Int) := by
  constructor
  · intro cat hcat
    have hpair : (cat.location, cat.count) ∈
        (buildCategories docs).map (fun c => (c.location, c.count)) := by
      rw [List.mem_map]
      exact ⟨cat, hcat, rfl⟩
    have hin := (buildCategories_pairs_perm docs).mem_iff.1 hpair
    rw [List.mem_map] at hin
    obtain ⟨p, hp, hpc⟩ := hin
    have hc : cat.count = (p.2 : Int) := (congrArg Prod.snd hpc).symm
    have := locationCounts_pos docs p hp
    rw [hc]
    exact_mod_cast this
  · have hfilter : docs.filter (fun d => goTrimSpace d.title ≠ "" ∧
        (buildCategories docs).any (fun c => c.location = d.location)) =
      docs.filter (fun d => goTrimSpace d.title ≠ "") := by
      apply List.filter_congr
      intro d hd
      by_cases hv : goTrimSpace d.title ≠ ""
      · simp [hv, buildCategories_covers docs d hd hv]
      · simp [hv]
    rw [hfilter]
    have hmaps : (buildCategories docs).map (fun c => c.count) =
        ((buildCategories docs).map (fun c => (c.location, c.count))).map Prod.snd := by
      rw [List.map_map]
      rfl
    rw [hmaps, ((buildCategories_pairs_perm docs).map Prod.snd).sum_eq]
    rw [List.map_map]
    rw [show (Prod.snd ∘ fun (p : String × Nat) => (p.1, (p.2 : Int))) =
      (fun p => ((p.2 : Nat) : Int)) from rfl]
    rw [sum_map_natCast, sum_locationCounts]

/-- Witness for C7 on a concrete document set. -/
theorem buildCategories_pos_sum_witness :
    (0 : Int) < ({ name := "📥 New", location := "new", count := 2 } : Category).count ∧
    ((buildCategories [docA, docB]).map (fun c => c.count)).sum = 2 := by
  have hmem : ({ name := "📥 New", location := "new", count := 2 } : Category) ∈
      buildCategories [docA, docB] := by decide
  have hlen : ((([docA, docB] : List Document).filter
      (fun d => goTrimSpace d.title ≠ "" ∧
        (buildCategories [docA, docB]).any (fun c => c.location = d.location))).length
      : Int) = 2 := by decide
  exact ⟨(buildCategories_pos_sum [docA, docB]).1 _ hmem,
    (buildCategories_pos_sum [docA, docB]).2.trans hlen⟩

/-! ## Claim C2: determinism of the category builder -/

/-- C2 counterexample: two documents with unrecognized locations `x` and
`y`.  The two orders are permutations of each other, yet the built
category lists differ (the unknown locations appear in first-encountered
order). -/
theorem buildCategories_permutation_counterexample :
    ([{ title := "A", location := "x" }, { title := "B", location := "y" }] :
        List Document).Perm
      [{ title := "B", location := "y" }, { title := "A", location := "x" }] ∧
    buildCategories [{ title := "A", location := "x" }, { title := "B", location := "y" }] ≠
      buildCategories [{ title := "B", location := "y" }, { title := "A", location := "x" }] := by
  decide

/-- C2 (amended): the output starts with the known locations in the fixed
preferred order, and when every document's location is a known preferred
one, feeding the set in any permutation yields the same output; the
categories of unrecognized locations follow in first-encountered order,
which a permutation can change. -/
theorem buildCategories_perm_invariant (docs1 docs2 : List Document)
    (hperm : docs1.Perm docs2)
    (hknown : ∀ d ∈ docs1, d.location ∈ preferredOrder) :
    buildCategories docs1 = buildCategories docs2 := by
  have hcv : ∀ k, countValid docs1 k = countValid docs2 k := by
    intro k
    unfold countValid
    rw [← List.countP_eq_length_filter, ← List.countP_eq_length_filter]
    exact hperm.countP_eq _
  have hlk : ∀ k, lookupCount (locationCounts docs1) k =
      lookupCount (locationCounts docs2) k := by
    intro k
    rw [lookupCount_locationCounts, lookupCount_locationCounts, hcv]
  have hknowncat : knownCategories (locationCounts docs1) =
      knownCategories (locationCounts docs2) := by
    rw [knownCategories_eq, knownCategories_eq]
    apply filterMap_congr_fun
    intro a ha
    unfold knownEntry
    rw [hlk]
  have hkeys : ∀ (docs : List Document), (∀ d ∈ docs, d.location ∈ preferredOrder) →
      ∀ p ∈ locationCounts docs, p.1 ∈ preferredOrder := by
    intro docs hdl p hp
    have hlp := (mem_iff_lookupCount _ _ _ (keys_locationCounts_nodup docs)).1 hp
    rw [lookupCount_locationCounts] at hlp
    by_cases h0 : countValid docs p.1 = 0
    · rw [if_pos h0] at hlp
      exact absurd hlp (by simp)
    · have hlen : 0 < (docs.filter
          (fun d => goTrimSpace d.title ≠ "" ∧ d.location = p.1)).length := by
        unfold countValid at h0
        omega
      have hne := List.length_pos.1 hlen
      obtain ⟨d, hdmem⟩ := List.exists_mem_of_ne_nil _ hne
      have hdf := List.mem_filter.1 hdmem
      obtain ⟨hddocs, hdp⟩ := hdf
      have hdl2 := of_decide_eq_true hdp
      rw [← hdl2.2]
      exact hdl d hddocs
  have hnone : ∀ (docs : List Document), (∀ d ∈ docs, d.location ∈ preferredOrder) →
      buildCategories docs = knownCategories (locationCounts docs) := by
    intro docs hdl
    rw [show buildCategories docs =
      addUnknownCategories (knownCategories (locationCounts docs)) (locationCounts docs)
      from rfl]
    rw [addUnknownCategories_eq _ _ (keys_locationCounts_nodup docs)
      (locationCounts_pos docs)]
    have hnil : (locationCounts docs).filter
        (fun p => !((knownCategories (locationCounts docs)).any
          (fun c => c.location = p.1))) = [] := by
      rw [List.filter_eq_nil]
      intro p hp
      have hin := hkeys docs hdl p hp
      have hlp := (mem_iff_lookupCount _ _ _ (keys_locationCounts_nodup docs)).1 hp
      have hppos := locationCounts_pos docs p hp
      have hanyp := (knownCategories_any_location (locationCounts docs) p.1).2
        ⟨hin, p.2, hlp, hppos⟩
      simp [hanyp]
    rw [hnil]
    simp
  rw [hnone docs1 hknown, hnone docs2 (fun d hd => hknown d (hperm.mem_iff.2 hd)),
    hknowncat]

/-- Witness for C2 (amended): swapping two documents at the known
location `new` leaves the output unchanged. -/
theorem buildCategories_perm_invariant_witness :
    buildCategories [docA, docB] = buildCategories [docB, docA] := by
  have h1 : ([docA, docB] : List Document).Perm [docB, docA] := by decide
  have h2 : ∀ d ∈ [docA, docB], d.location ∈ preferredOrder := by decide
  exact buildCategories_perm_invariant [docA, docB] [docB, docA] h1 h2

/-! ## Claims C1 and C3: the documents-loaded handler and movement bounds -/

/-- C1 counterexample: load two documents, move the selection down one,
then handle a second documents-loaded event (a refresh) delivering a
single document.  The handler leaves the selected index at 1, not 0 —
and the new filtered list has length 1, so the stale index is even out
of range. -/
theorem documentsLoaded_selected_counterexample :
    (applyMsgs noRender initialModel
      [Msg.allDocumentsLoaded [docA, docB], Msg.key "j",
       Msg.allDocumentsLoaded [docC]]).selected = 1 ∧
    (applyMsgs noRender initialModel
      [Msg.allDocumentsLoaded [docA, docB], Msg.key "j",
       Msg.allDocumentsLoaded [docC]]).documents.length = 1 := by decide

/-- C1 (amended): handling the documents-loaded event filters out
blank-title documents, stores the remainder as the full set, rebuilds
categories, clears loading and error, resets the selected category to
index 0, switches to the list view and, when a first category exists,
sets the active location and filtered list to it — but the selected
document index is left unchanged, not reset to 0. -/
theorem documentsLoaded_effects (render : String → Option String) (m m2 : App)
    (docs filtered : List Document)
    (hf : filtered = docs.filter (fun doc => goTrimSpace doc.title ≠ ""))
    (hm2 : m2 = update render m (Msg.allDocumentsLoaded docs)) :
    m2.allDocuments = filtered ∧
    m2.categories = buildCategories filtered ∧
    m2.loading = false ∧ m2.err = none ∧ m2.selectedCategory = 0 ∧
    m2.state = State.documentListView ∧
    m2.selected = m.selected ∧
    m2.scrollOffset = m.scrollOffset ∧
    (∀ c cs, buildCategories filtered = c :: cs →
      m2.currentLocation = c.location ∧
      m2.documents = filtered.filter (fun doc => doc.location = c.location)) ∧
    (buildCategories filtered = [] →
      m2.currentLocation = m.currentLocation ∧ m2.documents = m.documents) := by
  subst hf
  subst hm2
  simp only [update]
  cases h : buildCategories (docs.filter (fun doc => goTrimSpace doc.title ≠ "")) with
  | nil => simp [h, filterDocumentsByLocation]
  | cons c cs =>
    simp [h, filterDocumentsByLocation]

/-- Witness for C1 (amended): the concrete refresh of the counterexample,
checked through the theorem. -/
theorem documentsLoaded_effects_witness :
    (update noRender initialModel (Msg.allDocumentsLoaded [docA])).selected =
      initialModel.selected ∧
    (update noRender initialModel (Msg.allDocumentsLoaded [docA])).loading = false :=
  ⟨(documentsLoaded_effects noRender initialModel _ [docA] _ rfl rfl).2.2.2.2.2.2.1,
   (documentsLoaded_effects noRender initialModel _ [docA] _ rfl rfl).2.2.1⟩

/-- The movement inputs covered by C3. -/
inductive MoveKey where
  | up
  | down
  | j
  | k
  | ctrlU
  | ctrlD
  deriving DecidableEq

/-- The key message sent by each movement input. -/
def MoveKey.msg : MoveKey → Msg
  | MoveKey.up => Msg.key "up"
  | MoveKey.down => Msg.key "down"
  | MoveKey.j => Msg.key "j"
  | MoveKey.k => Msg.key "k"
  | MoveKey.ctrlU => Msg.key "ctrl+u"
  | MoveKey.ctrlD => Msg.key "ctrl+d"

/-- The bounds of C3: the selected index lies in `[0, length - 1]` when
the filtered list is non-empty, and the scroll offset lies in
`[0, maxScroll]`. -/
def InBounds (m : App) : Prop :=
  0 ≤ m.selected ∧
  (0 < m.documents.length → m.selected ≤ (m.documents.length : Int) - 1) ∧
  0 ≤ m.scrollOffset ∧ m.scrollOffset ≤ maxScrollOf m

instance (m : App) : Decidable (InBounds m) := by
  unfold InBounds
  infer_instance

/-- C3 counterexample: the state reached by loading two documents,
pressing `j`, and refreshing down to one document is reachable but out of
bounds (selected = 1 on a one-element list), and a further movement input
(`j` again) leaves it out of bounds: the selection neither moves nor is
clamped. -/
theorem moveKey_out_of_bounds_counterexample :
    (applyMsgs noRender initialModel
      [Msg.allDocumentsLoaded [docA, docB], Msg.key "j",
       Msg.allDocumentsLoaded [docC], Msg.key "j"]).selected = 1 ∧
    (applyMsgs noRender initialModel
      [Msg.allDocumentsLoaded [docA, docB], Msg.key "j",
       Msg.allDocumentsLoaded [docC], Msg.key "j"]).documents.length = 1 ∧
    ¬ InBounds (applyMsgs noRender initialModel
      [Msg.allDocumentsLoaded [docA, docB], Msg.key "j",
       Msg.allDocumentsLoaded [docC], Msg.key "j"]) := by decide

/-- The `up`/`k` branch of the key switch preserves the bounds. -/
theorem inBounds_upStep (m : App) (h : InBounds m) :
    InBounds
      (if m.state = State.documentListView ∧ 0 < m.documents.length ∧ 0 < m.selected then
        { m with selected := m.selected - 1 }
      else if m.state = State.documentReadView ∧ 0 < m.scrollOffset then
        { m with scrollOffset := m.scrollOffset - 1 }
      else m) := by
  obtain ⟨h1, h2, h3, h4⟩ := h
  unfold maxScrollOf at h4
  split_ifs with hA hB
  · obtain ⟨-, hlen, hsel⟩ := hA
    have hb := h2 hlen
    refine ⟨?_, fun _ => ?_, h3, h4⟩
    · show 0 ≤ m.selected - 1
      omega
    · show m.selected - 1 ≤ (m.documents.length : Int) - 1
      omega
  · obtain ⟨-, hscroll⟩ := hB
    refine ⟨h1, fun hl => h2 hl, ?_, ?_⟩
    · show 0 ≤ m.scrollOffset - 1
      omega
    · show m.scrollOffset - 1 ≤ max ((m.contentLines.length : Int) - (m.height - 6)) 0
      omega
  · exact ⟨h1, h2, h3, h4⟩

/-- The `down`/`j` branch of the key switch preserves the bounds. -/
theorem inBounds_downStep (m : App) (h : InBounds m) :
    InBounds
      (if m.state = State.documentListView ∧ 0 < m.documents.length ∧
          m.selected < (m.documents.length : Int) - 1 then
        { m with selected := m.selected + 1 }
      else if m.state = State.documentReadView ∧ 0 < m.contentLines.length then
        if m.scrollOffset < max ((m.contentLines.length : Int) - (m.height - 6)) 0 then
          { m with scrollOffset := m.scrollOffset + 1 }
        else m
      else m) := by
  obtain ⟨h1, h2, h3, h4⟩ := h
  unfold maxScrollOf at h4
  split_ifs with hA hB hC
  · obtain ⟨-, hlen, hsel⟩ := hA
    refine ⟨?_, fun _ => ?_, h3, h4⟩
    · show 0 ≤ m.selected + 1
      omega
    · show m.selected + 1 ≤ (m.documents.length : Int) - 1
      omega
  · refine ⟨h1, fun hl => h2 hl, ?_, ?_⟩
    · show 0 ≤ m.scrollOffset + 1
      omega
    · show m.scrollOffset + 1 ≤ max ((m.contentLines.length : Int) - (m.height - 6)) 0
      omega
  · exact ⟨h1, h2, h3, h4⟩
  · exact ⟨h1, h2, h3, h4⟩

/-- The `ctrl+u` branch of the key switch preserves the bounds. -/
theorem inBounds_halfUpStep (m : App) (h : InBounds m) :
    InBounds
      (if m.state = State.documentListView ∧ 0 < m.documents.length then
        { m with selected := max 0 (m.selected - max 1 (Int.tdiv (m.height - 8) 2)) }
      else if m.state = State.documentReadView then
        { m with scrollOffset := max 0 (m.scrollOffset - max 1 (Int.tdiv (m.height - 6) 2)) }
      else m) := by
  obtain ⟨h1, h2, h3, h4⟩ := h
  unfold maxScrollOf at h4
  split_ifs with hA hB
  · obtain ⟨-, hlen⟩ := hA
    have hb := h2 hlen
    refine ⟨?_, fun _ => ?_, h3, h4⟩
    · show 0 ≤ max 0 (m.selected - max 1 (Int.tdiv (m.height - 8) 2))
      omega
    · show max 0 (m.selected - max 1 (Int.tdiv (m.height - 8) 2)) ≤
        (m.documents.length : Int) - 1
      omega
  · refine ⟨h1, fun hl => h2 hl, ?_, ?_⟩
    · show 0 ≤ max 0 (m.scrollOffset - max 1 (Int.tdiv (m.height - 6) 2))
      omega
    · show max 0 (m.scrollOffset - max 1 (Int.tdiv (m.height - 6) 2)) ≤
        max ((m.contentLines.length : Int) - (m.height - 6)) 0
      omega
  · exact ⟨h1, h2, h3, h4⟩

/-- The `ctrl+d` branch of the key switch preserves the bounds. -/
theorem inBounds_halfDownStep (m : App) (h : InBounds m) :
    InBounds
      (if m.state = State.documentListView ∧ 0 < m.documents.length then
        { m with selected := min ((m.documents.length : Int) - 1) (m.selected + max 1 (Int.tdiv (m.height - 8) 2)) }
      else if m.state = State.documentReadView ∧ 0 < m.contentLines.length then
        { m with scrollOffset := min (max ((m.contentLines.length : Int) - (m.height - 6)) 0) (m.scrollOffset + max 1 (Int.tdiv (m.height - 6) 2)) }
      else m) := by
  obtain ⟨h1, h2, h3, h4⟩ := h
  unfold maxScrollOf at h4
  split_ifs with hA hB
  · obtain ⟨-, hlen⟩ := hA
    refine ⟨?_, fun _ => ?_, h3, h4⟩
    · show 0 ≤ min ((m.documents.length : Int) - 1)
        (m.selected + max 1 (Int.tdiv (m.height - 8) 2))
      omega
    · show min ((m.documents.length : Int) - 1)
        (m.selected + max 1 (Int.tdiv (m.height - 8) 2)) ≤ (m.documents.length : Int) - 1
      omega
  · refine ⟨h1, fun hl => h2 hl, ?_, ?_⟩
    · show 0 ≤ min (max ((m.contentLines.length : Int) - (m.height - 6)) 0)
        (m.scrollOffset + max 1 (Int.tdiv (m.height - 6) 2))
      omega
    · show min (max ((m.contentLines.length : Int) - (m.height - 6)) 0)
        (m.scrollOffset + max 1 (Int.tdiv (m.height - 6) 2)) ≤
        max ((m.contentLines.length : Int) - (m.height - 6)) 0
      omega
  · exact ⟨h1, h2, h3, h4⟩

/-- One movement input preserves the bounds invariant. -/
theorem update_moveKey_inBounds (render : String → Option String) (m : App)
    (mk : MoveKey) (h : InBounds m) : InBounds (update render m mk.msg) := by
  cases mk with
  | up => exact inBounds_upStep m h
  | down => exact inBounds_downStep m h
  | j => exact inBounds_downStep m h
  | k => exact inBounds_upStep m h
  | ctrlU => exact inBounds_halfUpStep m h
  | ctrlD => exact inBounds_halfDownStep m h

/-- C3 (amended): any sequence of movement inputs preserves the bounds
invariant; it holds from any in-bounds state, though not from every
reachable state (see the counterexample: a refresh can leave a stale
out-of-range selection, which movement inputs do not clamp back). -/
theorem moveKeys_preserve_inBounds (render : String → Option String) (m : App)
    (moves : List MoveKey) (h : InBounds m) :
    InBounds (moves.foldl (fun s mk => update render s mk.msg) m) := by
  induction moves generalizing m with
  | nil => exact h
  | cons mk rest ih => exact ih _ (update_moveKey_inBounds render m mk h)

/-- Witness for C3 (amended): a half-page jump followed by moves at the
boundary, from a concrete in-bounds state. -/
theorem moveKeys_preserve_inBounds_witness :
    InBounds (([MoveKey.ctrlD, MoveKey.ctrlD, MoveKey.down, MoveKey.up,
        MoveKey.ctrlU, MoveKey.ctrlU, MoveKey.k, MoveKey.j]).foldl
      (fun s mk => update noRender s mk.msg)
      { documents := [docA, docB, docC], height := 10 }) :=
  moveKeys_preserve_inBounds noRender { documents := [docA, docB, docC], height := 10 }
    [MoveKey.ctrlD, MoveKey.ctrlD, MoveKey.down, MoveKey.up,
     MoveKey.ctrlU, MoveKey.ctrlU, MoveKey.k, MoveKey.j] (by decide)

/-! ## Claim C4: the viewport window -/

/-- C4: for all `totalItems`, `index`, `capacity` with `capacity ≥ 1` and
`0 ≤ index < totalItems`, the document-list window contains `index`, has
length `min totalItems capacity`, and satisfies
`0 ≤ windowStart ≤ windowEnd ≤ totalItems`. -/
theorem listWindow_contains_selected (totalItems index capacity : Int)
    (hcap : 1 ≤ capacity) (h0 : 0 ≤ index) (hi : index < totalItems) :
    0 ≤ (listWindow totalItems index capacity).1 ∧
    (listWindow totalItems index capacity).1 ≤ (listWindow totalItems index capacity).2 ∧
    (listWindow totalItems index capacity).2 ≤ totalItems ∧
    (listWindow totalItems index capacity).1 ≤ index ∧
    index < (listWindow totalItems index capacity).2 ∧
    (listWindow totalItems index capacity).2 - (listWindow totalItems index capacity).1 =
      min totalItems capacity := by
  have hq : Int.tdiv capacity 2 = capacity / 2 := Int.tdiv_eq_ediv (by omega) (by omega)
  simp only [listWindow, hq, max_def, min_def]
  split_ifs <;> omega

/-- Witness for C4 at `totalItems = 12`, `index = 7`, `capacity = 5`. -/
theorem listWindow_contains_selected_witness :
    (listWindow 12 7 5).1 ≤ 7 ∧ 7 < (listWindow 12 7 5).2 ∧
    (listWindow 12 7 5).2 - (listWindow 12 7 5).1 = min 12 5 :=
  ⟨(listWindow_contains_selected 12 7 5 (by decide) (by decide) (by decide)).2.2.2.1,
   (listWindow_contains_selected 12 7 5 (by decide) (by decide) (by decide)).2.2.2.2.1,
   (listWindow_contains_selected 12 7 5 (by decide) (by decide) (by decide)).2.2.2.2.2⟩

/-! ## Claim C5: visible capacities -/

/-- C5 counterexample: at terminal height 9 the reading view's capacity is
`9 - 6 = 3`, which is below the floor of 10 the claim asserts (the code
substitutes 10 only when `height - 6 < 1`). -/
theorem readingCapacity_nine_below_ten :
    readingCapacity 9 = 3 ∧ ¬ (10 ≤ readingCapacity 9) := by decide

/-- C5 (amended): the list capacity is `height - 8` floored at 5; the
reading capacity is `height - 6` when that is at least 1 and 10
otherwise, so it never falls below 1 (but can fall below 10). -/
theorem capacity_floors (h : Int) :
    5 ≤ listCapacity h ∧ 1 ≤ readingCapacity h ∧
    (h ≤ 6 → readingCapacity h = 10) ∧ (7 ≤ h → readingCapacity h = h - 6) := by
  unfold listCapacity readingCapacity
  refine ⟨le_max_right _ _, ?_, ?_, ?_⟩ <;> simp only [] <;> split_ifs <;> omega

/-- Witness for C5 (amended) at heights 20 and 3. -/
theorem capacity_floors_witness :
    5 ≤ listCapacity 20 ∧ readingCapacity 20 = 14 ∧ readingCapacity 3 = 10 :=
  ⟨(capacity_floors 20).1, by
    have := (capacity_floors 20).2.2.2 (by decide)
    omega,
   (capacity_floors 3).2.2.1 (by decide)⟩

/-! ## Claim C10: the back input -/

/-- C10: in the reading view, `esc` or `backspace` switches the state to
the list view, clears the content and the scroll offset, and leaves every
other field of the model unchanged. -/
theorem back_returns_to_list (render : String → Option String) (m : App)
    (hstate : m.state = State.documentReadView) :
    update render m (Msg.key "esc") =
      { m with state := State.documentListView, content := "", scrollOffset := 0 } ∧
    update render m (Msg.key "backspace") =
      { m with state := State.documentListView, content := "", scrollOffset := 0 } := by
  constructor <;> simp [update, hstate]

/-- Witness for C10: a concrete reading-view state. -/
theorem back_returns_to_list_witness :
    update (fun _ => none)
        { content := "body", contentLines := ["body"], scrollOffset := 3,
          height := 20, state := State.documentReadView }
        (Msg.key "esc") =
      { content := "", contentLines := ["body"], scrollOffset := 0,
        height := 20, state := State.documentListView } :=
  (back_returns_to_list (fun _ => none)
    { content := "body", contentLines := ["body"], scrollOffset := 3,
      height := 20, state := State.documentReadView } rfl).1
